import Mathlib

/-!
Verification of the FortuneFlip wheel application (src/App.js).

Shallow embedding of the wheel/segment data model, the Collection Store
mutators, the selection engine (spinWheel, lines 223-246), the wedge
geometry of WheelCanvas (lines 48-103) and the startup load effect
(lines 112-133).

Conventions of the embedding:
- JavaScript ids are strings generated by `Date.now() + Math.random()`;
  the generator is external, so every operation that creates a fresh id
  takes the fresh id as an explicit argument.
- `Math.random()` draws are rationals `r` with `0 ≤ r < 1`, passed as
  explicit arguments; angle arithmetic is over `ℚ`.
- The JavaScript `x || null` coercion on strings (empty string is falsy)
  is modelled by `jsStringOrNull`.
- React state (`wheels`, `activeWheelId`, `selectedSegmentId`,
  `isSpinning`) is an explicit `AppState` record; each event handler is a
  function from the state (plus its inputs) to the new state.
-/

namespace FortuneFlip

/-- A segment of a wheel: `createSegment` in App.js builds `{id, label}`. -/
structure Segment where
  id : String
  label : String
deriving DecidableEq, Repr

/-- A wheel: `createWheel` in App.js builds `{id, name, segments}`. -/
structure Wheel where
  id : String
  name : String
  segments : List Segment
deriving DecidableEq, Repr

/-- The React state of the `App` component (lines 106-110 of App.js). -/
structure AppState where
  wheels : List Wheel
  activeWheelId : Option String
  selectedSegmentId : Option String
  isSpinning : Bool
deriving DecidableEq, Repr

/-- Embeds `createSegment` (App.js lines 19-22); the generated id is an
explicit argument, the label defaults to "Default" at call sites. -/
def createSegment (id : String) (label : String) : Segment :=
  { id := id, label := label }

/-- Embeds `createWheel` (App.js lines 24-28): fresh ids for the wheel and
its single initial default segment are explicit arguments. -/
def createWheel (id segId : String) (name : String) : Wheel :=
  { id := id, name := name, segments := [createSegment segId ("Default")] }

/-- Embeds `ensureSegments` (App.js lines 30-31):
`segments.length > 0 ? segments : [createSegment()]`. -/
def ensureSegments (freshId : String) (segments : List Segment) : List Segment :=
  if 0 < segments.length then segments else [createSegment freshId ("Default")]

/-- JavaScript `s || null` for a possibly-null string: the empty string is
falsy and collapses to null. -/
def jsStringOrNull (o : Option String) : Option String :=
  match o with
  | some x => if x = "" then none else some x
  | none => none

/-- Embeds `wheels.find((wheel) => wheel.id === activeWheelId)`: a null
`activeWheelId` matches no wheel id. -/
def findWheel (wheels : List Wheel) (aid : Option String) : Option Wheel :=
  match aid with
  | some a => wheels.find? (fun w => w.id = a)
  | none => none

/-- Embeds the `activeWheel` memo (App.js lines 151-154):
`wheels.find((wheel) => wheel.id === activeWheelId) || wheels[0]`. -/
def activeWheel (s : AppState) : Option Wheel :=
  (findWheel s.wheels s.activeWheelId).orElse (fun _ => s.wheels.head?)

/-- Embeds `updateWheel` (App.js lines 162-168). The source merges the
updater result over the wheel with `{ ...wheel, ...updater(wheel) }`; the
callers pass updaters producing only `name` or `segments` fields, so here
each caller passes a total `Wheel → Wheel` function keeping `id` unchanged. -/
def updateWheel (wheels : List Wheel) (wheelId : String) (updater : Wheel → Wheel) :
    List Wheel :=
  wheels.map (fun w => if w.id = wheelId then updater w else w)

/-- Embeds `addWheel` (App.js lines 170-176); the fresh wheel id and fresh
initial-segment id are explicit arguments. -/
def addWheel (s : AppState) (newId newSegId : String) : AppState :=
  let newWheel := createWheel newId newSegId ("Wheel " ++ toString (s.wheels.length + 1))
  { s with
    wheels := s.wheels ++ [newWheel],
    activeWheelId := some newWheel.id,
    selectedSegmentId := none }

/-- Embeds `deleteWheel` (App.js lines 178-188): no-op when only one wheel
exists; otherwise filters the wheel out, and when it was active the next
active wheel is `wheels.find((wheel) => wheel.id !== wheelId)?.id || null`
and the selected segment is cleared. -/
def deleteWheel (s : AppState) (wheelId : String) : AppState :=
  if s.wheels.length = 1 then s
  else
    let newWheels := s.wheels.filter (fun w => w.id ≠ wheelId)
    if s.activeWheelId = some wheelId then
      { s with
        wheels := newWheels,
        activeWheelId :=
          jsStringOrNull ((s.wheels.find? (fun w => w.id ≠ wheelId)).map Wheel.id),
        selectedSegmentId := none }
    else
      { s with wheels := newWheels }

/-- Embeds `addSegment` (App.js lines 190-195); the fresh segment id is an
explicit argument. -/
def addSegment (s : AppState) (newSegId : String) : AppState :=
  match activeWheel s with
  | none => s
  | some aw =>
    { s with
      wheels := updateWheel s.wheels aw.id (fun w =>
        { w with
          segments := w.segments ++
            [createSegment newSegId ("Segment " ++ toString (w.segments.length + 1))] }) }

/-- Embeds `updateSegmentLabel` (App.js lines 197-204). -/
def updateSegmentLabel (s : AppState) (segmentId label : String) : AppState :=
  match activeWheel s with
  | none => s
  | some aw =>
    { s with
      wheels := updateWheel s.wheels aw.id (fun w =>
        { w with
          segments := w.segments.map (fun seg =>
            if seg.id = segmentId then { seg with label := label } else seg) }) }

/-- Embeds `deleteSegment` (App.js lines 206-216); `freshSegId` is the id
`createSegment` would generate inside `ensureSegments`. -/
def deleteSegment (s : AppState) (segmentId freshSegId : String) : AppState :=
  match activeWheel s with
  | none => s
  | some aw =>
    let s1 :=
      { s with
        wheels := updateWheel s.wheels aw.id (fun w =>
          { w with
            segments := ensureSegments freshSegId
              (w.segments.filter (fun seg => seg.id ≠ segmentId)) }) }
    if s.selectedSegmentId = some segmentId then
      { s1 with selectedSegmentId := none }
    else s1

/-- Embeds `renameWheel` (App.js lines 218-221). -/
def renameWheel (s : AppState) (name : String) : AppState :=
  match activeWheel s with
  | none => s
  | some aw =>
    { s with wheels := updateWheel s.wheels aw.id (fun w => { w with name := name }) }

/-- Embeds the wheel-selector chip press (App.js lines 276-279):
`setActiveWheelId(wheel.id); setSelectedSegmentId(null)`. The spec calls
this `setActiveWheel`. -/
def setActiveWheel (s : AppState) (wheelId : String) : AppState :=
  { s with activeWheelId := some wheelId, selectedSegmentId := none }

/-- Embeds `anglePerSegment = 360 / segments.length`
(App.js lines 51 and 229). -/
def anglePerSegment (n : ℕ) : ℚ := 360 / (n : ℚ)

/-- The pure computation inside `spinWheel` (App.js lines 226-231): given
the segment list and the two `Math.random()` draws `r1` (index draw) and
`r2` (offset draw), returns the winner (`segments[winningIndex]`, which is
`undefined`, i.e. `none`, when out of bounds) and the target rotation
`extraSpins * 360 + winningIndex * anglePerSegment + randomOffset`. -/
def spin (segments : List Segment) (r1 r2 : ℚ) : Option Segment × ℚ :=
  let n := segments.length
  let winningIndex : ℤ := ⌊r1 * (n : ℚ)⌋
  let winner : Option Segment :=
    if winningIndex < 0 then none else segments.get? winningIndex.toNat
  let extraSpins : ℚ := 4
  let randomOffset : ℚ := r2 * anglePerSegment n
  (winner, extraSpins * 360 + (winningIndex : ℚ) * anglePerSegment n + randomOffset)

/-- The winner and target rotation handed to the animation when a spin
actually starts. -/
structure SpinPending where
  winner : Option Segment
  targetRotation : ℚ
deriving DecidableEq, Repr

/-- Embeds `spinWheel` (App.js lines 223-246) up to the start of the
animation: returns early (no state change, no pending animation) when
there is no active wheel or a spin is already in flight; otherwise sets
the spinning flag, clears the selected segment and yields the pending
winner and target rotation for the animation. -/
def spinWheel (s : AppState) (r1 r2 : ℚ) : AppState × Option SpinPending :=
  match activeWheel s with
  | none => (s, none)
  | some aw =>
    if s.isSpinning then (s, none)
    else
      let p := spin aw.segments r1 r2
      ({ s with isSpinning := true, selectedSegmentId := none },
        some { winner := p.1, targetRotation := p.2 })

/-- Embeds the animation completion callback (App.js lines 242-245):
`setIsSpinning(false); setSelectedSegmentId(winner.id)`. The spec calls
this `recordSpinResult`. -/
def recordSpinResult (s : AppState) (winnerId : String) : AppState :=
  { s with isSpinning := false, selectedSegmentId := some winnerId }

/-- The outcome of reading and parsing the persisted snapshot in the load
effect (App.js lines 112-133): the stored value can be absent
(`raw` null), corrupt (`JSON.parse` throws, caught at line 125), or a
parsed record with optional `wheels` and `activeWheelId` fields. -/
inductive LoadResult where
  | absent : LoadResult
  | corrupt : LoadResult
  | parsed : Option (List Wheel) → Option String → LoadResult
deriving DecidableEq, Repr

/-- Embeds the load effect (App.js lines 112-133): yields the initial
`(wheels, activeWheelId)` pair. Absent and corrupt snapshots both build
a starter wheel named Wheel 1 (with fresh ids, explicit arguments here) and
make it active; a parsed snapshot yields `parsed.wheels || []` and
`parsed.activeWheelId || parsed.wheels?.[0]?.id || null`. -/
def loadState (r : LoadResult) (freshWheelId freshSegId : String) :
    List Wheel × Option String :=
  match r with
  | LoadResult.parsed pw paid =>
    let ws := pw.getD []
    (ws, (jsStringOrNull paid).orElse
      (fun _ => jsStringOrNull (ws.head?.map Wheel.id)))
  | LoadResult.absent =>
    let starterWheel := createWheel freshWheelId freshSegId ("Wheel 1")
    ([starterWheel], some starterWheel.id)
  | LoadResult.corrupt =>
    let starterWheel := createWheel freshWheelId freshSegId ("Wheel 1")
    ([starterWheel], some starterWheel.id)

/-- Wedge geometry of `WheelCanvas` (App.js lines 48-103): segment `i` of
`n` is drawn as the arc from `startAngle = anglePerSegment * i` to
`endAngle = startAngle + anglePerSegment`. `polarToCartesian` maps angle 0
to the top of the circle (where the fixed pointer sits, lines 420-433) and
angle 90 to the right, i.e. angles grow clockwise on screen from the
pointer direction. So wedge `i` spans the clockwise angles
`[i * 360/n, (i+1) * 360/n)` from the pointer. -/
def segmentStartAngle (n i : ℕ) : ℚ := anglePerSegment n * (i : ℚ)

/-- Reduction of an angle to `[0, 360)` degrees. -/
def angleMod360 (x : ℚ) : ℚ := x - 360 * (⌊x / 360⌋ : ℚ)

/-- After the wheel is rotated clockwise by `θ` degrees (the React Native
`rotate` transform with the interpolation of App.js lines 59-63 is a
clockwise rotation by `spinValue` degrees), the wheel-frame point that
was at clockwise angle `φ` from the top sits at screen angle `φ + θ`; the
fixed pointer is at screen angle 0, so the wheel-frame angle under the
pointer is `(-θ) mod 360`. -/
def pointerAngle (θ : ℚ) : ℚ := angleMod360 (-θ)

/-- The index of the wedge of an `n`-segment wheel containing wheel-frame
angle `φ ∈ [0, 360)`: wedge `i` spans `[i * 360/n, (i+1) * 360/n)`. -/
def wedgeAt (n : ℕ) (φ : ℚ) : ℤ := ⌊φ / anglePerSegment n⌋

/-- The wedge sitting under the fixed pointer once the wheel has been
rotated clockwise by `θ` degrees. -/
def wedgeUnderPointer (n : ℕ) (θ : ℚ) : ℤ := wedgeAt n (pointerAngle θ)

/-- The two structural bounds of the data model: at least one wheel, and
at least one segment in every wheel. -/
def Bounds (wheels : List Wheel) : Prop :=
  1 ≤ wheels.length ∧ ∀ w ∈ wheels, 1 ≤ w.segments.length

instance (wheels : List Wheel) : Decidable (Bounds wheels) := by
  unfold Bounds; infer_instance

/-- A valid collection state: the structural bounds hold and wheel ids are
pairwise distinct (ids are opaque unique identifiers). -/
def ValidState (s : AppState) : Prop :=
  Bounds s.wheels ∧ (s.wheels.map Wheel.id).Nodup

instance (s : AppState) : Decidable (ValidState s) := by
  unfold ValidState; infer_instance

/-- Frame predicate for wheel-targeting mutations: the wheel list keeps
its length, every position keeps its wheel id, and every position whose
wheel is not the target keeps its wheel entirely unchanged. -/
def FramePreserved (old new : List Wheel) (targetId : String) : Prop :=
  new.length = old.length ∧
  ∀ i : ℕ, ∀ ho : i < old.length, ∀ hn : i < new.length,
    (new.get ⟨i, hn⟩).id = (old.get ⟨i, ho⟩).id ∧
    ((old.get ⟨i, ho⟩).id ≠ targetId → new.get ⟨i, hn⟩ = old.get ⟨i, ho⟩)

/-- Concrete wheel used by the witnesses. -/
def wheelOne : Wheel :=
  { id := "w1", name := "Wheel 1", segments := [{ id := "s1", label := "Default" }] }

/-- Second concrete wheel used by the witnesses. -/
def wheelTwo : Wheel :=
  { id := "w2", name := "Wheel 2", segments := [{ id := "s2", label := "Default" }] }

/-- Concrete state with a single wheel. -/
def oneWheelState : AppState :=
  { wheels := [wheelOne], activeWheelId := some ("w1"),
    selectedSegmentId := none, isSpinning := false }

/-- Concrete state with two wheels, the first active, and the first
segment of the active wheel recorded as the winner of the last spin. -/
def twoWheelState : AppState :=
  { wheels := [wheelOne, wheelTwo], activeWheelId := some ("w1"),
    selectedSegmentId := some ("s1"), isSpinning := false }

/-- Concrete state in the middle of a spin animation. -/
def spinningState : AppState :=
  { twoWheelState with isSpinning := true }

/-- Concrete two-element segment list used by the spin witnesses. -/
def twoSegs : List Segment :=
  [{ id := "s1", label := "Default" }, { id := "x", label := "X" }]

/-- C7: when exactly one wheel exists, deleteWheel is a no-op: the wheels
sequence, activeWheelId and selectedSegmentId are all unchanged (the whole
state is returned untouched). -/
theorem deleteWheel_only_wheel_noop (s : AppState) (wheelId : String)
    (h : s.wheels.length = 1) :
    deleteWheel s wheelId = s := by
  simp [deleteWheel, h]

/-- Witness for C7 at a concrete one-wheel state. -/
theorem deleteWheel_only_wheel_noop_witness :
    oneWheelState.wheels.length = 1 ∧ deleteWheel oneWheelState ("w1") = oneWheelState :=
  ⟨by decide, deleteWheel_only_wheel_noop oneWheelState ("w1") (by decide)⟩

/-- C9: when the stored snapshot is absent or corrupt, the load effect
produces exactly one wheel named "Wheel 1" with exactly one default
segment, and that wheel is active. -/
theorem loadState_fallback (r : LoadResult) (fid sid : String)
    (h : r = LoadResult.absent ∨ r = LoadResult.corrupt) :
    loadState r fid sid =
      ([{ id := fid, name := "Wheel 1",
          segments := [{ id := sid, label := "Default" }] }], some fid) := by
  rcases h with h | h <;> subst h <;> rfl

/-- Witness for C9 at the absent-snapshot outcome. -/
theorem loadState_fallback_witness :
    (LoadResult.absent = LoadResult.absent ∨ LoadResult.absent = LoadResult.corrupt) ∧
    loadState LoadResult.absent ("f") ("s") =
      ([{ id := "f", name := "Wheel 1",
          segments := [{ id := "s", label := "Default" }] }], some ("f")) :=
  ⟨Or.inl rfl, loadState_fallback LoadResult.absent ("f") ("s") (Or.inl rfl)⟩

/-- C8: while the spinning flag is set, a further spin request is a
complete no-op (the state is unchanged and no animation is produced), and
the completion callback is what resets the flag and records the winner. -/
theorem spinWheel_noop_while_spinning (s : AppState) (r1 r2 : ℚ) (winnerId : String)
    (h : s.isSpinning = true) :
    spinWheel s r1 r2 = (s, none) ∧
    (recordSpinResult s winnerId).isSpinning = false ∧
    (recordSpinResult s winnerId).selectedSegmentId = some winnerId := by
  refine ⟨?_, rfl, rfl⟩
  unfold spinWheel
  cases hw : activeWheel s with
  | none => rfl
  | some aw => simp [h]

/-- Witness for C8 at a concrete mid-spin state. -/
theorem spinWheel_noop_while_spinning_witness :
    spinningState.isSpinning = true ∧
    (spinWheel spinningState 0 0 = (spinningState, none) ∧
      (recordSpinResult spinningState ("s1")).isSpinning = false ∧
      (recordSpinResult spinningState ("s1")).selectedSegmentId = some ("s1")) :=
  ⟨rfl, spinWheel_noop_while_spinning spinningState 0 0 ("s1") rfl⟩

/-- Helper: the winning index drawn in spin is nonnegative and below the
segment count whenever the draw lies in `[0, 1)`. -/
theorem winningIndex_bounds (n : ℕ) (r1 : ℚ) (hn : 0 < n) (h0 : 0 ≤ r1) (h1 : r1 < 1) :
    0 ≤ ⌊r1 * (n : ℚ)⌋ ∧ ⌊r1 * (n : ℚ)⌋ < (n : ℤ) := by
  have hnq : (0 : ℚ) < (n : ℚ) := by exact_mod_cast hn
  constructor
  · exact Int.floor_nonneg.mpr (mul_nonneg h0 (le_of_lt hnq))
  · apply Int.floor_lt.mpr
    calc r1 * (n : ℚ) < 1 * (n : ℚ) := by
          exact mul_lt_mul_of_pos_right h1 hnq
      _ = ((n : ℤ) : ℚ) := by push_cast; ring

/-- C2: for a non-empty segment list and a draw `r1 ∈ [0,1)`, the winning
index `⌊r1 * segments.length⌋` lies in `[0, segments.length)`, so the
indexing is in bounds and the winner returned by spin is exactly
`segments[winningIndex]`. -/
theorem spin_winner_in_bounds (segments : List Segment) (r1 r2 : ℚ)
    (hne : segments ≠ []) (h0 : 0 ≤ r1) (h1 : r1 < 1) :
    ∃ hlt : (⌊r1 * (segments.length : ℚ)⌋).toNat < segments.length,
      0 ≤ ⌊r1 * (segments.length : ℚ)⌋ ∧
      ⌊r1 * (segments.length : ℚ)⌋ < (segments.length : ℤ) ∧
      (spin segments r1 r2).1 =
        some (segments.get ⟨(⌊r1 * (segments.length : ℚ)⌋).toNat, hlt⟩) := by
  have hn : 0 < segments.length := List.length_pos.mpr hne
  obtain ⟨hge, hlt⟩ := winningIndex_bounds segments.length r1 hn h0 h1
  have hltn : (⌊r1 * (segments.length : ℚ)⌋).toNat < segments.length := by omega
  refine ⟨hltn, hge, hlt, ?_⟩
  simp only [spin]
  rw [if_neg (by omega)]
  exact List.get?_eq_get hltn

/-- Witness for C2: a two-segment wheel with draw 1/2 selects index 1. -/
theorem spin_winner_in_bounds_witness :
    (twoSegs ≠ ([] : List Segment)) ∧
    ((0 : ℚ) ≤ 1/2) ∧ ((1/2 : ℚ) < 1) ∧
    ∃ hlt : (⌊(1/2 : ℚ) *
        (twoSegs.length : ℚ)⌋).toNat <
        twoSegs.length,
      0 ≤ ⌊(1/2 : ℚ) * (twoSegs.length : ℚ)⌋ ∧
      ⌊(1/2 : ℚ) * (twoSegs.length : ℚ)⌋ <
        (twoSegs.length : ℤ) ∧
      (spin twoSegs (1/2) 0).1 =
        some (twoSegs.get
          ⟨(⌊(1/2 : ℚ) * (twoSegs.length : ℚ)⌋).toNat, hlt⟩) :=
  ⟨by decide, by norm_num, by norm_num,
    spin_winner_in_bounds twoSegs (1/2) 0
      (by decide) (by norm_num) (by norm_num)⟩

/-- C3: spin computes the target rotation as
`4 * 360 + winningIndex * anglePerSegment + offset` with the offset in
`[0, anglePerSegment)`, and the target rotation always lies in
`[1440, 1800)`. -/
theorem spin_targetRotation_bounds (segments : List Segment) (r1 r2 : ℚ)
    (hne : segments ≠ []) (h0 : 0 ≤ r1) (h1 : r1 < 1)
    (h2 : 0 ≤ r2) (h3 : r2 < 1) :
    (spin segments r1 r2).2 =
      4 * 360 + (⌊r1 * (segments.length : ℚ)⌋ : ℚ) * anglePerSegment segments.length
        + r2 * anglePerSegment segments.length ∧
    0 ≤ r2 * anglePerSegment segments.length ∧
    r2 * anglePerSegment segments.length < anglePerSegment segments.length ∧
    4 * 360 ≤ (spin segments r1 r2).2 ∧
    (spin segments r1 r2).2 < 4 * 360 + 360 := by
  have hn : 0 < segments.length := List.length_pos.mpr hne
  have hnq : (0 : ℚ) < (segments.length : ℚ) := by exact_mod_cast hn
  have ha : 0 < anglePerSegment segments.length := by
    unfold anglePerSegment; positivity
  obtain ⟨hge, hlt⟩ := winningIndex_bounds segments.length r1 hn h0 h1
  have heq : (spin segments r1 r2).2 =
      4 * 360 + (⌊r1 * (segments.length : ℚ)⌋ : ℚ) * anglePerSegment segments.length
        + r2 * anglePerSegment segments.length := rfl
  have hidxq : (0 : ℚ) ≤ (⌊r1 * (segments.length : ℚ)⌋ : ℚ) := by exact_mod_cast hge
  have hoff0 : 0 ≤ r2 * anglePerSegment segments.length :=
    mul_nonneg h2 (le_of_lt ha)
  have hoff1 : r2 * anglePerSegment segments.length < anglePerSegment segments.length := by
    calc r2 * anglePerSegment segments.length
        < 1 * anglePerSegment segments.length := mul_lt_mul_of_pos_right h3 ha
      _ = anglePerSegment segments.length := one_mul _
  refine ⟨heq, hoff0, hoff1, ?_, ?_⟩
  · rw [heq]
    have : 0 ≤ (⌊r1 * (segments.length : ℚ)⌋ : ℚ) * anglePerSegment segments.length :=
      mul_nonneg hidxq (le_of_lt ha)
    linarith
  · rw [heq]
    have hsum : (⌊r1 * (segments.length : ℚ)⌋ : ℚ) + r2 < (segments.length : ℚ) := by
      have hidxlt : (⌊r1 * (segments.length : ℚ)⌋ : ℚ) ≤ (segments.length : ℚ) - 1 := by
        have : ⌊r1 * (segments.length : ℚ)⌋ ≤ (segments.length : ℤ) - 1 := by omega
        exact_mod_cast this
      linarith
    have hmul : ((⌊r1 * (segments.length : ℚ)⌋ : ℚ) + r2) * anglePerSegment segments.length
        < (segments.length : ℚ) * anglePerSegment segments.length :=
      mul_lt_mul_of_pos_right hsum ha
    have hfull : (segments.length : ℚ) * anglePerSegment segments.length = 360 := by
      unfold anglePerSegment
      field_simp
    nlinarith [hmul, hfull]

/-- Witness for C3: a two-segment wheel with both draws 1/2 yields a
target rotation of 1530 degrees, inside the stated bounds. -/
theorem spin_targetRotation_bounds_witness :
    (twoSegs ≠ ([] : List Segment)) ∧
    ((spin twoSegs (1/2) (1/2)).2 =
      4 * 360 + (⌊(1/2 : ℚ) *
        (twoSegs.length : ℚ)⌋ : ℚ) *
        anglePerSegment twoSegs.length
        + (1/2 : ℚ) *
        anglePerSegment twoSegs.length ∧
      0 ≤ (1/2 : ℚ) *
        anglePerSegment twoSegs.length ∧
      (1/2 : ℚ) *
        anglePerSegment twoSegs.length <
        anglePerSegment twoSegs.length ∧
      4 * 360 ≤ (spin twoSegs (1/2) (1/2)).2 ∧
      (spin twoSegs (1/2) (1/2)).2 < 4 * 360 + 360) :=
  ⟨by decide,
    spin_targetRotation_bounds twoSegs (1/2) (1/2)
      (by decide) (by norm_num) (by norm_num) (by norm_num) (by norm_num)⟩

/-- C4 (refuted, code bug): on a two-segment wheel with draws
`r1 = 0` and `r2 = 1/2`, spin selects the winner at index 0 — the wedge
spanning clockwise angles `[0, 180)` from the pointer — and computes the
target rotation 1530. Rotating the wheel clockwise by 1530 degrees leaves
the pointer at wheel-frame angle 270, inside wedge 1, not the winning
wedge 0: the animated rotation terminates with the pointer over the
losing wedge, contradicting the claimed consistency of the selection
computation and the wedge drawing. -/
theorem pointer_misses_winning_wedge :
    (spin twoSegs 0 (1/2)).1 = some { id := "s1", label := "Default" } ∧
    (spin twoSegs 0 (1/2)).2 = 1530 ∧
    segmentStartAngle 2 0 = 0 ∧
    segmentStartAngle 2 1 = 180 ∧
    wedgeUnderPointer 2 ((spin twoSegs 0 (1/2)).2) = 1 := by
  have h2 : (spin twoSegs 0 (1/2)).2 = 1530 := by
    norm_num [spin, twoSegs, anglePerSegment]
  refine ⟨?_, h2, ?_, ?_, ?_⟩
  · norm_num [spin, twoSegs]
  · norm_num [segmentStartAngle, anglePerSegment]
  · norm_num [segmentStartAngle, anglePerSegment]
  · rw [h2]
    norm_num [wedgeUnderPointer, wedgeAt, pointerAngle, angleMod360,
      anglePerSegment, Int.floor_eq_iff]

/-- Helper: splitting a list with pairwise-distinct keys at the unique
element carrying key `k`; filtering that key out removes exactly that
element. -/
theorem filter_ne_key_of_nodup {α : Type} (key : α → String) (l : List α) (k : String)
    (hnd : (l.map key).Nodup) (hmem : k ∈ l.map key) :
    ∃ l1 x l2, l = l1 ++ x :: l2 ∧ key x = k ∧
      (∀ y ∈ l1, key y ≠ k) ∧ (∀ y ∈ l2, key y ≠ k) ∧
      l.filter (fun y => key y ≠ k) = l1 ++ l2 := by
  induction l with
  | nil => simp at hmem
  | cons a t ih =>
    rw [List.map_cons, List.nodup_cons] at hnd
    by_cases ha : key a = k
    · have ht : ∀ y ∈ t, key y ≠ k := by
        intro y hy hky
        exact hnd.1 (by rw [ha, ← hky]; exact List.mem_map_of_mem key hy)
      refine ⟨[], a, t, by simp, ha, by simp, ht, ?_⟩
      have hself : t.filter (fun y => key y ≠ k) = t :=
        List.filter_eq_self.mpr (fun y hy => by simpa using ht y hy)
      simp only [List.nil_append]
      rw [List.filter_cons]
      simp only [ha, ne_eq, not_true_eq_false, decide_not, Bool.not_true,
        decide_eq_true_eq] at *
      simp [ha, hself]
    · have hmem' : k ∈ t.map key := by
        rcases List.mem_map.mp hmem with ⟨y, hy, hky⟩
        rcases List.mem_cons.mp hy with rfl | hyt
        · exact absurd hky ha
        · exact List.mem_map.mpr ⟨y, hyt, hky⟩
      obtain ⟨l1, x, l2, hdec, hx, h1, h2, hf⟩ := ih hnd.2 hmem'
      refine ⟨a :: l1, x, l2, by rw [hdec]; rfl, hx, ?_, h2, ?_⟩
      · intro y hy
        rcases List.mem_cons.mp hy with rfl | hyl
        · exact ha
        · exact h1 y hyl
      · rw [List.filter_cons]
        simp only [ne_eq, decide_not] at hf
        simp [ha, hf]

/-- Helper: mapping an update keyed on `k` over a list split at the
element with key `k` touches only that element when the rest have other
keys. -/
theorem map_if_key {α : Type} (key : α → String) (f : α → α)
    (l1 : List α) (x : α) (l2 : List α) (k : String)
    (hx : key x = k) (h1 : ∀ y ∈ l1, key y ≠ k) (h2 : ∀ y ∈ l2, key y ≠ k) :
    (l1 ++ x :: l2).map (fun y => if key y = k then f y else y) =
      l1 ++ f x :: l2 := by
  rw [List.map_append, List.map_cons]
  congr 1
  · exact ((List.map_congr_left (fun y hy => if_neg (h1 y hy))).trans (List.map_id l1))
  · congr 1
    · exact if_pos hx
    · exact ((List.map_congr_left (fun y hy => if_neg (h2 y hy))).trans (List.map_id l2))

/-- Helper: ensureSegments always yields at least one segment. -/
theorem one_le_length_ensureSegments (freshId : String) (l : List Segment) :
    1 ≤ (ensureSegments freshId l).length := by
  unfold ensureSegments
  split
  · omega
  · simp

/-- Helper: updateWheel preserves the bounds when the updater keeps every
updated wheel non-empty. -/
theorem bounds_updateWheel (wheels : List Wheel) (wid : String) (f : Wheel → Wheel)
    (hb : Bounds wheels)
    (hf : ∀ w ∈ wheels, 1 ≤ (f w).segments.length) :
    Bounds (updateWheel wheels wid f) := by
  constructor
  · simpa [updateWheel] using hb.1
  · intro w hw
    rcases List.mem_map.mp hw with ⟨w0, hw0, rfl⟩
    by_cases h : w0.id = wid
    · rw [if_pos h]; exact hf w0 hw0
    · rw [if_neg h]; exact hb.2 w0 hw0

/-- Helper: when more than one wheel exists, deleteWheel leaves exactly
the filtered wheel list. -/
theorem deleteWheel_wheels_eq (s : AppState) (wid : String)
    (h1 : s.wheels.length ≠ 1) :
    (deleteWheel s wid).wheels = s.wheels.filter (fun w => w.id ≠ wid) := by
  unfold deleteWheel
  rw [if_neg h1]
  by_cases hact : s.activeWheelId = some wid <;> simp [hact]

/-- Helper: deleteSegment rewrites the wheel list through updateWheel on
the active wheel, whatever happens to the selected segment. -/
theorem deleteSegment_wheels_eq (s : AppState) (aw : Wheel)
    (segmentId freshSegId : String) (hw : activeWheel s = some aw) :
    (deleteSegment s segmentId freshSegId).wheels =
      updateWheel s.wheels aw.id (fun w =>
        { w with
          segments := ensureSegments freshSegId
            (w.segments.filter (fun seg => seg.id ≠ segmentId)) }) := by
  unfold deleteSegment
  rw [hw]
  by_cases hsel : s.selectedSegmentId = some segmentId <;> simp [hsel]

/-- Helper: the wheel list is untouched by the start of a spin. -/
theorem spinWheel_wheels_eq (s : AppState) (r1 r2 : ℚ) :
    (spinWheel s r1 r2).1.wheels = s.wheels := by
  unfold spinWheel
  cases activeWheel s with
  | none => rfl
  | some aw =>
    by_cases h : s.isSpinning <;> simp [h]

/-- C1: on a valid state (at least one wheel, every wheel non-empty,
distinct wheel ids) the two structural bounds hold, and every mutator —
addWheel, deleteWheel, renameWheel, addSegment, updateSegmentLabel,
deleteSegment, setActiveWheel, spinWheel and recordSpinResult — produces
a state that again satisfies both bounds. -/
theorem mutators_preserve_bounds (s : AppState)
    (newId newSegId addSegId segmentId label freshSegId winnerId wid wid2 nm : String)
    (r1 r2 : ℚ) (hv : ValidState s) :
    Bounds s.wheels ∧
    Bounds (addWheel s newId newSegId).wheels ∧
    Bounds (deleteWheel s wid).wheels ∧
    Bounds (renameWheel s nm).wheels ∧
    Bounds (addSegment s addSegId).wheels ∧
    Bounds (updateSegmentLabel s segmentId label).wheels ∧
    Bounds (deleteSegment s segmentId freshSegId).wheels ∧
    Bounds (setActiveWheel s wid2).wheels ∧
    Bounds (spinWheel s r1 r2).1.wheels ∧
    Bounds (recordSpinResult s winnerId).wheels := by
  obtain ⟨hb, hnd⟩ := hv
  refine ⟨hb, ?_, ?_, ?_, ?_, ?_, ?_, hb, ?_, hb⟩
  · constructor
    · simp [addWheel]
    · intro w hw
      simp only [addWheel, List.mem_append, List.mem_singleton] at hw
      rcases hw with hw | rfl
      · exact hb.2 w hw
      · simp [createWheel, createSegment]
  · by_cases h1 : s.wheels.length = 1
    · rw [show deleteWheel s wid = s by simp [deleteWheel, h1]]
      exact hb
    · rw [deleteWheel_wheels_eq s wid h1]
      constructor
      · by_cases hm : wid ∈ s.wheels.map Wheel.id
        · obtain ⟨l1, x, l2, hdec, hx, hl1, hl2, hf⟩ :=
            filter_ne_key_of_nodup Wheel.id s.wheels wid hnd hm
          have hlen : s.wheels.length = l1.length + l2.length + 1 := by
            rw [hdec]
            simp only [List.length_append, List.length_cons]
            omega
          rw [hf]
          have := hb.1
          simp only [List.length_append]
          omega
        · have hall : ∀ w ∈ s.wheels, w.id ≠ wid := fun w hw hww =>
            hm (List.mem_map.mpr ⟨w, hw, hww⟩)
          rw [List.filter_eq_self.mpr (fun y hy => by simpa using hall y hy)]
          exact hb.1
      · intro w hw
        exact hb.2 w (List.mem_of_mem_filter hw)
  · unfold renameWheel
    cases activeWheel s with
    | none => exact hb
    | some aw =>
      exact bounds_updateWheel s.wheels aw.id _ hb (fun w hw => hb.2 w hw)
  · unfold addSegment
    cases activeWheel s with
    | none => exact hb
    | some aw =>
      refine bounds_updateWheel s.wheels aw.id _ hb (fun w hw => ?_)
      simp
  · unfold updateSegmentLabel
    cases activeWheel s with
    | none => exact hb
    | some aw =>
      refine bounds_updateWheel s.wheels aw.id _ hb (fun w hw => ?_)
      simpa using hb.2 w hw
  · cases hw : activeWheel s with
    | none =>
      rw [show deleteSegment s segmentId freshSegId = s by
        unfold deleteSegment; rw [hw]]
      exact hb
    | some aw =>
      rw [deleteSegment_wheels_eq s aw segmentId freshSegId hw]
      exact bounds_updateWheel s.wheels aw.id _ hb
        (fun w _ => one_le_length_ensureSegments freshSegId _)
  · rw [spinWheel_wheels_eq]
    exact hb

/-- Witness for C1 at the concrete two-wheel state. -/
theorem mutators_preserve_bounds_witness :
    ValidState twoWheelState ∧
    (Bounds twoWheelState.wheels ∧
      Bounds (addWheel twoWheelState ("w3") ("s3")).wheels ∧
      Bounds (deleteWheel twoWheelState ("w2")).wheels ∧
      Bounds (renameWheel twoWheelState ("New")).wheels ∧
      Bounds (addSegment twoWheelState ("s4")).wheels ∧
      Bounds (updateSegmentLabel twoWheelState ("s1") ("L")).wheels ∧
      Bounds (deleteSegment twoWheelState ("s1") ("s5")).wheels ∧
      Bounds (setActiveWheel twoWheelState ("w2")).wheels ∧
      Bounds (spinWheel twoWheelState 0 0).1.wheels ∧
      Bounds (recordSpinResult twoWheelState ("s1")).wheels) :=
  ⟨by decide,
    mutators_preserve_bounds twoWheelState ("w3") ("s3") ("s4") ("s1") ("L") ("s5")
      ("s1") ("w2") ("w2") ("New") 0 0 (by decide)⟩

/-- Helper: updateWheel with an id-preserving updater keeps the list
length, every positional wheel id, and every non-targeted wheel. -/
theorem framePreserved_updateWheel (wheels : List Wheel) (wid : String)
    (f : Wheel → Wheel) (hf : ∀ w, (f w).id = w.id) :
    FramePreserved wheels (updateWheel wheels wid f) wid := by
  constructor
  · simp [updateWheel]
  · intro i ho hn
    have hget : (updateWheel wheels wid f).get ⟨i, hn⟩ =
        if (wheels.get ⟨i, ho⟩).id = wid then f (wheels.get ⟨i, ho⟩)
        else wheels.get ⟨i, ho⟩ := by
      simp only [updateWheel, List.get_eq_getElem, List.getElem_map]
    rw [hget]
    by_cases h : (wheels.get ⟨i, ho⟩).id = wid
    · rw [if_pos h]
      exact ⟨hf _, fun hne => absurd h hne⟩
    · rw [if_neg h]
      exact ⟨rfl, fun _ => rfl⟩

/-- C10: targeted wheel mutations (renameWheel, addSegment,
updateSegmentLabel, deleteSegment) leave every other wheel completely
unchanged at its position and never change any wheel id, including the
targeted one. -/
theorem wheel_mutations_frame (s : AppState) (aw : Wheel)
    (hw : activeWheel s = some aw)
    (nm label segmentId freshSegId newSegId : String) :
    FramePreserved s.wheels (renameWheel s nm).wheels aw.id ∧
    FramePreserved s.wheels (addSegment s newSegId).wheels aw.id ∧
    FramePreserved s.wheels (updateSegmentLabel s segmentId label).wheels aw.id ∧
    FramePreserved s.wheels (deleteSegment s segmentId freshSegId).wheels aw.id := by
  refine ⟨?_, ?_, ?_, ?_⟩
  · unfold renameWheel
    rw [hw]
    exact framePreserved_updateWheel _ _ _ (fun w => rfl)
  · unfold addSegment
    rw [hw]
    exact framePreserved_updateWheel _ _ _ (fun w => rfl)
  · unfold updateSegmentLabel
    rw [hw]
    exact framePreserved_updateWheel _ _ _ (fun w => rfl)
  · rw [show (deleteSegment s segmentId freshSegId).wheels =
        updateWheel s.wheels aw.id (fun w =>
          { w with
            segments := ensureSegments freshSegId
              (w.segments.filter (fun seg => seg.id ≠ segmentId)) }) from
      deleteSegment_wheels_eq s aw segmentId freshSegId hw]
    exact framePreserved_updateWheel _ _ _ (fun w => rfl)

/-- Witness for C10 at the concrete two-wheel state. -/
theorem wheel_mutations_frame_witness :
    activeWheel twoWheelState = some wheelOne ∧
    (FramePreserved twoWheelState.wheels
        (renameWheel twoWheelState ("N")).wheels wheelOne.id ∧
      FramePreserved twoWheelState.wheels
        (addSegment twoWheelState ("s8")).wheels wheelOne.id ∧
      FramePreserved twoWheelState.wheels
        (updateSegmentLabel twoWheelState ("s1") ("L")).wheels wheelOne.id ∧
      FramePreserved twoWheelState.wheels
        (deleteSegment twoWheelState ("s1") ("s9")).wheels wheelOne.id) :=
  ⟨by decide,
    wheel_mutations_frame twoWheelState wheelOne (by decide)
      ("N") ("L") ("s1") ("s9") ("s8")⟩

/-- Helper: deleteWheel on a multi-wheel state when the deleted wheel is
the active one. -/
theorem deleteWheel_active_eq (s : AppState) (wid : String)
    (h1 : s.wheels.length ≠ 1) (hact : s.activeWheelId = some wid) :
    deleteWheel s wid =
      { s with
        wheels := s.wheels.filter (fun w => w.id ≠ wid),
        activeWheelId :=
          jsStringOrNull ((s.wheels.find? (fun w => w.id ≠ wid)).map Wheel.id),
        selectedSegmentId := none } := by
  simp [deleteWheel, h1, hact]

/-- Helper: deleteWheel on a multi-wheel state when the deleted wheel is
not the active one. -/
theorem deleteWheel_inactive_eq (s : AppState) (wid : String)
    (h1 : s.wheels.length ≠ 1) (hact : s.activeWheelId ≠ some wid) :
    deleteWheel s wid =
      { s with wheels := s.wheels.filter (fun w => w.id ≠ wid) } := by
  simp [deleteWheel, h1, hact]

/-- Helper: the first element whose key differs from `k`, in a list split
at the unique element with key `k`, is the head of the remainder. -/
theorem find?_ne_eq_head? (l1 : List Wheel) (x : Wheel) (l2 : List Wheel) (k : String)
    (hx : x.id = k) (hl1 : ∀ y ∈ l1, y.id ≠ k) (hl2 : ∀ y ∈ l2, y.id ≠ k) :
    (l1 ++ x :: l2).find? (fun w => w.id ≠ k) = (l1 ++ l2).head? := by
  cases l1 with
  | nil =>
    simp only [List.nil_append]
    rw [List.find?_cons_of_neg _ (by simp [hx])]
    cases l2 with
    | nil => rfl
    | cons b t =>
      rw [List.find?_cons_of_pos _ (by simpa using hl2 b (List.mem_cons_self b t))]
      rfl
  | cons a t =>
    rw [List.cons_append, List.find?_cons_of_pos _
      (by simpa using hl1 a (List.mem_cons_self a t))]
    rfl

/-- C5 counterexample: two wheels with the first one active and a recorded
winner; deleting the second (non-active) wheel removes it but leaves
`selectedSegmentId` present, so the claim that deleteWheel always clears
the selected segment fails. -/
theorem deleteWheel_inactive_keeps_selected :
    2 ≤ twoWheelState.wheels.length ∧
    (twoWheelState.wheels.map Wheel.id).Nodup ∧
    ("w2" ∈ twoWheelState.wheels.map Wheel.id) ∧
    twoWheelState.selectedSegmentId = some ("s1") ∧
    (deleteWheel twoWheelState ("w2")).wheels = [wheelOne] ∧
    (deleteWheel twoWheelState ("w2")).selectedSegmentId = some ("s1") := by
  decide

/-- C5 (amended): on a state with at least two wheels, distinct non-empty
wheel ids and the deleted id present, deleteWheel removes exactly that
wheel; when the deleted wheel was active, the first remaining wheel in
sequence order becomes active and the selected segment is cleared; when
it was not active, activeWheelId and selectedSegmentId are unchanged. -/
theorem deleteWheel_spec (s : AppState) (wheelId : String)
    (h2 : 2 ≤ s.wheels.length)
    (hnd : (s.wheels.map Wheel.id).Nodup)
    (hmem : wheelId ∈ s.wheels.map Wheel.id)
    (hids : ∀ w ∈ s.wheels, w.id ≠ "") :
    ∃ l1 w l2, s.wheels = l1 ++ w :: l2 ∧ w.id = wheelId ∧
      (deleteWheel s wheelId).wheels = l1 ++ l2 ∧
      (s.activeWheelId = some wheelId →
        ∃ fw, (l1 ++ l2).head? = some fw ∧
          (deleteWheel s wheelId).activeWheelId = some fw.id ∧
          (deleteWheel s wheelId).selectedSegmentId = none) ∧
      (s.activeWheelId ≠ some wheelId →
        (deleteWheel s wheelId).activeWheelId = s.activeWheelId ∧
        (deleteWheel s wheelId).selectedSegmentId = s.selectedSegmentId) := by
  have h1 : s.wheels.length ≠ 1 := by omega
  obtain ⟨l1, w, l2, hdec, hwid, hl1, hl2, hf⟩ :=
    filter_ne_key_of_nodup Wheel.id s.wheels wheelId hnd hmem
  refine ⟨l1, w, l2, hdec, hwid, ?_, ?_, ?_⟩
  · rw [deleteWheel_wheels_eq s wheelId h1, hf]
  · intro hact
    have hfind : s.wheels.find? (fun y => y.id ≠ wheelId) = (l1 ++ l2).head? := by
      conv =>
        lhs
        rw [hdec]
      exact find?_ne_eq_head? l1 w l2 wheelId hwid hl1 hl2
    have hlen : s.wheels.length = l1.length + l2.length + 1 := by
      rw [hdec]
      simp only [List.length_append, List.length_cons]
      omega
    obtain ⟨fw, t, hft⟩ : ∃ fw t, l1 ++ l2 = fw :: t := by
      cases hc : l1 ++ l2 with
      | nil =>
        exfalso
        have : l1.length + l2.length = 0 := by
          have := congrArg List.length hc
          simpa using this
        omega
      | cons fw t => exact ⟨fw, t, rfl⟩
    have hfw_mem : fw ∈ s.wheels := by
      rw [hdec]
      have hfin : fw ∈ l1 ++ l2 := by
        rw [hft]
        exact List.mem_cons_self fw t
      rcases List.mem_append.mp hfin with h | h
      · exact List.mem_append.mpr (Or.inl h)
      · exact List.mem_append.mpr (Or.inr (List.mem_cons_of_mem w h))
    refine ⟨fw, by rw [hft]; rfl, ?_, ?_⟩
    · rw [deleteWheel_active_eq s wheelId h1 hact]
      show jsStringOrNull ((s.wheels.find? (fun y => y.id ≠ wheelId)).map Wheel.id) =
        some fw.id
      rw [hfind, hft]
      simp [jsStringOrNull, hids fw hfw_mem]
    · rw [deleteWheel_active_eq s wheelId h1 hact]
  · intro hact
    rw [deleteWheel_inactive_eq s wheelId h1 hact]
    exact ⟨rfl, rfl⟩

/-- Witness for the amended C5: deleting the active first wheel of the
concrete two-wheel state. -/
theorem deleteWheel_spec_witness :
    2 ≤ twoWheelState.wheels.length ∧
    (twoWheelState.wheels.map Wheel.id).Nodup ∧
    ("w1" ∈ twoWheelState.wheels.map Wheel.id) ∧
    (∀ w ∈ twoWheelState.wheels, w.id ≠ "") ∧
    ∃ l1 w l2, twoWheelState.wheels = l1 ++ w :: l2 ∧ w.id = "w1" ∧
      (deleteWheel twoWheelState ("w1")).wheels = l1 ++ l2 ∧
      (twoWheelState.activeWheelId = some ("w1") →
        ∃ fw, (l1 ++ l2).head? = some fw ∧
          (deleteWheel twoWheelState ("w1")).activeWheelId = some fw.id ∧
          (deleteWheel twoWheelState ("w1")).selectedSegmentId = none) ∧
      (twoWheelState.activeWheelId ≠ some ("w1") →
        (deleteWheel twoWheelState ("w1")).activeWheelId = twoWheelState.activeWheelId ∧
        (deleteWheel twoWheelState ("w1")).selectedSegmentId =
          twoWheelState.selectedSegmentId) :=
  ⟨by decide, by decide, by decide, by decide,
    deleteWheel_spec twoWheelState ("w1") (by decide) (by decide) (by decide) (by decide)⟩

/-- Helper: a wheel picked out by findWheel is a member of the list. -/
theorem findWheel_mem (wheels : List Wheel) (aid : Option String) (w : Wheel)
    (h : findWheel wheels aid = some w) : w ∈ wheels := by
  cases aid with
  | none => exact Option.noConfusion h
  | some a => exact List.mem_of_find?_eq_some h

/-- Helper: the head of a list is a member. -/
theorem head?_mem {α : Type} (l : List α) (a : α) (h : l.head? = some a) :
    a ∈ l := by
  cases l with
  | nil => exact Option.noConfusion h
  | cons b t =>
    have hb : b = a := by
      simp only [List.head?_cons] at h
      exact Option.some.inj h
    rw [← hb]
    exact List.mem_cons_self b t

/-- Helper: the active wheel is always a member of the wheel list. -/
theorem activeWheel_mem (s : AppState) (aw : Wheel)
    (hw : activeWheel s = some aw) : aw ∈ s.wheels := by
  unfold activeWheel at hw
  cases hfw : findWheel s.wheels s.activeWheelId with
  | some w =>
    rw [hfw] at hw
    have hwa : w = aw := by
      simpa [Option.orElse] using hw
    exact hwa ▸ findWheel_mem s.wheels s.activeWheelId w hfw
  | none =>
    rw [hfw] at hw
    have hh : s.wheels.head? = some aw := by
      simpa [Option.orElse] using hw
    exact head?_mem s.wheels aw hh

/-- Helper: in a list of pairwise-distinct keys split at `x`, every other
element carries a key different from the key of `x`. -/
theorem nodup_key_split {α : Type} (key : α → String) (l1 : List α) (x : α)
    (l2 : List α) (hnd : ((l1 ++ x :: l2).map key).Nodup) :
    (∀ y ∈ l1, key y ≠ key x) ∧ (∀ y ∈ l2, key y ≠ key x) := by
  rw [List.map_append, List.map_cons] at hnd
  obtain ⟨hnd1, hnd2, hdisj⟩ := List.nodup_append.mp hnd
  constructor
  · intro y hy hk
    exact hdisj (List.mem_map_of_mem key hy) (by rw [hk]; exact List.mem_cons_self _ _)
  · intro y hy hk
    have hx_notmem : key x ∉ l2.map key := (List.nodup_cons.mp hnd2).1
    exact hx_notmem (hk ▸ List.mem_map_of_mem key hy)

/-- C6: deleteSegment removes the segment carrying the given id from the
active wheel; when that removal would leave the wheel empty, the wheel
gets exactly one freshly generated default segment instead; and when the
recorded winner was exactly the deleted segment, selectedSegmentId becomes
absent (otherwise it is untouched). -/
theorem deleteSegment_spec (s : AppState) (aw : Wheel)
    (segmentId freshSegId : String)
    (hw : activeWheel s = some aw)
    (hnd : (s.wheels.map Wheel.id).Nodup)
    (hsnd : (aw.segments.map Segment.id).Nodup)
    (hsmem : segmentId ∈ aw.segments.map Segment.id) :
    ∃ L1 L2 g1 seg g2,
      s.wheels = L1 ++ aw :: L2 ∧
      aw.segments = g1 ++ seg :: g2 ∧
      seg.id = segmentId ∧
      (deleteSegment s segmentId freshSegId).wheels =
        L1 ++ { aw with segments := ensureSegments freshSegId (g1 ++ g2) } :: L2 ∧
      (g1 ++ g2 = [] →
        ensureSegments freshSegId (g1 ++ g2) = [createSegment freshSegId ("Default")]) ∧
      (g1 ++ g2 ≠ [] → ensureSegments freshSegId (g1 ++ g2) = g1 ++ g2) ∧
      (s.selectedSegmentId = some segmentId →
        (deleteSegment s segmentId freshSegId).selectedSegmentId = none) ∧
      (s.selectedSegmentId ≠ some segmentId →
        (deleteSegment s segmentId freshSegId).selectedSegmentId =
          s.selectedSegmentId) := by
  have hmem : aw ∈ s.wheels := activeWheel_mem s aw hw
  obtain ⟨L1, L2, hLdec⟩ := List.append_of_mem hmem
  have hkeys := nodup_key_split Wheel.id L1 aw L2 (by rw [← hLdec]; exact hnd)
  obtain ⟨g1, seg, g2, hgdec, hsid, hg1, hg2, hgf⟩ :=
    filter_ne_key_of_nodup Segment.id aw.segments segmentId hsnd hsmem
  refine ⟨L1, L2, g1, seg, g2, hLdec, hgdec, hsid, ?_, ?_, ?_, ?_, ?_⟩
  · rw [deleteSegment_wheels_eq s aw segmentId freshSegId hw]
    unfold updateWheel
    conv =>
      lhs
      rw [hLdec]
    rw [map_if_key Wheel.id _ L1 aw L2 aw.id rfl hkeys.1 hkeys.2]
    rw [hgf]
  · intro hnil
    rw [hnil]
    rfl
  · intro hne
    unfold ensureSegments
    rw [if_pos (List.length_pos.mpr hne)]
  · intro hsel
    unfold deleteSegment
    rw [hw]
    simp only [if_pos hsel]
  · intro hsel
    unfold deleteSegment
    rw [hw]
    simp only [if_neg hsel]

/-- Witness for C6: deleting the only segment of the active wheel of the
concrete two-wheel state. -/
theorem deleteSegment_spec_witness :
    activeWheel twoWheelState = some wheelOne ∧
    (twoWheelState.wheels.map Wheel.id).Nodup ∧
    (wheelOne.segments.map Segment.id).Nodup ∧
    ("s1" ∈ wheelOne.segments.map Segment.id) ∧
    ∃ L1 L2 g1 seg g2,
      twoWheelState.wheels = L1 ++ wheelOne :: L2 ∧
      wheelOne.segments = g1 ++ seg :: g2 ∧
      seg.id = "s1" ∧
      (deleteSegment twoWheelState ("s1") ("s9")).wheels =
        L1 ++ { wheelOne with
          segments := ensureSegments ("s9") (g1 ++ g2) } :: L2 ∧
      (g1 ++ g2 = [] →
        ensureSegments ("s9") (g1 ++ g2) = [createSegment ("s9") ("Default")]) ∧
      (g1 ++ g2 ≠ [] → ensureSegments ("s9") (g1 ++ g2) = g1 ++ g2) ∧
      (twoWheelState.selectedSegmentId = some ("s1") →
        (deleteSegment twoWheelState ("s1") ("s9")).selectedSegmentId = none) ∧
      (twoWheelState.selectedSegmentId ≠ some ("s1") →
        (deleteSegment twoWheelState ("s1") ("s9")).selectedSegmentId =
          twoWheelState.selectedSegmentId) :=
  ⟨by decide, by decide, by decide, by decide,
    deleteSegment_spec twoWheelState wheelOne ("s1") ("s9")
      (by decide) (by decide) (by decide) (by decide)⟩

end FortuneFlip
